import Mathlib

/-!
Verification of the NanoSage recursive research agent against its
natural-language specification.

The development shallowly embeds the Python source (web_crawler.py,
search_session.py, knowledge_base.py) into Lean:

* pure Python string manipulation is modelled directly over `List Char`
  (Python iterates strings by code point, which `String.data` mirrors);
* Python floats are modelled as `ℚ` where only field arithmetic and order
  are used, and as `ℝ` where square roots (vector norms) appear;
* calls into external libraries (ML encoders, `hashlib`, `fitz`,
  `random.choices`' selection step, network engines, the filesystem) are
  parameters of the embedded functions; code that may raise is modelled
  with `Option`/`Except`.
-/

namespace NanoSage

/-! ## Python string primitives (modelled over `List Char`) -/

/-- Strip of leading and trailing whitespace, modelling Python `str.strip()`
restricted to ASCII whitespace (the inputs manipulated here). -/
def stripChars (l : List Char) : List Char :=
  ((l.dropWhile Char.isWhitespace).reverse.dropWhile Char.isWhitespace).reverse

/-- Python `str.strip()` on strings. -/
def pyStrip (s : String) : String :=
  String.mk (stripChars s.data)

/-- Python `str.lower()`; `Char.toLower` lowers the ASCII range, which is all
the claims below evaluate it on. -/
def pyLower (s : String) : String :=
  String.mk (s.data.map Char.toLower)

/-- Python `suffix in`-style `str.endswith(suffix)`. -/
def pyEndsWith (s : String) (suffix : String) : Bool :=
  suffix.data.isSuffixOf s.data

/-- Python `needle in haystack` on strings: naive substring search. -/
def listContains (needle : List Char) : List Char → Bool
  | [] => needle.isEmpty
  | c :: rest => needle.isPrefixOf (c :: rest) || listContains needle rest

/-- Python `str.split(sep)` for a one-character separator.  Mirrors Python:
`"".split(".") = [""]`, separators at the ends produce empty pieces. -/
def splitOnChar (sep : Char) : List Char → List (List Char)
  | [] => [[]]
  | c :: rest =>
    let r := splitOnChar sep rest
    if c = sep then [] :: r
    else
      match r with
      | [] => [[c]]
      | h :: t => (c :: h) :: t

/-- Python `str.isalnum()` for one character.  Python's predicate is defined by
the Unicode database; this model is exact on ASCII (`[0-9A-Za-z]`) and on the
Latin-1 block U+00C0–U+00FF, whose code points are all Unicode letters except
× (U+00D7) and ÷ (U+00F7).  Every concrete character the theorems below
evaluate it at lies in one of those two ranges.  (web_crawler.py line 102 and
search_session.py line 38 rely on this predicate.) -/
def pyIsAlnum (c : Char) : Bool :=
  (0x30 ≤ c.toNat && c.toNat ≤ 0x39) ||
  (0x41 ≤ c.toNat && c.toNat ≤ 0x5A) ||
  (0x61 ≤ c.toNat && c.toNat ≤ 0x7A) ||
  (0xC0 ≤ c.toNat && c.toNat ≤ 0xFF && !(c.toNat = 0xD7) && !(c.toNat = 0xF7))

/-! ## web_crawler.py: `sanitize_filename` (lines 100–102) -/

/-- web_crawler.py lines 100–102: keep a character if `c.isalnum()` or it is
one of `.`, `_`, `-`; replace every other character with `_`. -/
def sanitize_filename (filename : String) : String :=
  String.mk (filename.data.map (fun c =>
    if pyIsAlnum c || (['.', '_', '-'] : List Char).contains c then c else '_'))

/-- The character class `[A-Za-z0-9._-]` named by the specification's filename
policy (spec §6); written from the spec's words, to be compared with the
code's `pyIsAlnum`-based predicate. -/
def spec_allowed (c : Char) : Bool :=
  (0x30 ≤ c.toNat && c.toNat ≤ 0x39) ||
  (0x41 ≤ c.toNat && c.toNat ≤ 0x5A) ||
  (0x61 ≤ c.toNat && c.toNat ≤ 0x7A) ||
  (['.', '_', '-'] : List Char).contains c

/-! ## search_session.py: `clean_search_query` (lines 24–27) and
`split_query` (lines 29–47) -/

/-- One pass of `re.sub(r'\s+', ' ', query)`: collapse every maximal
whitespace run to a single space.  The flag records whether the previous
character was part of a whitespace run. -/
def collapseWs : Bool → List Char → List Char
  | _, [] => []
  | prevWs, c :: rest =>
    if c.isWhitespace then
      if prevWs then collapseWs true rest
      else ' ' :: collapseWs true rest
    else c :: collapseWs false rest

/-- search_session.py lines 24–27: drop `*`, `_` and backquote characters,
collapse whitespace runs to single spaces, then strip. -/
def clean_search_query (query : String) : String :=
  pyStrip (String.mk (collapseWs false
    (query.data.filter (fun c => !(c = '*' || c = '_' || c = Char.ofNat 96)))))

/-- The sentence-accumulation loop of `split_query` (search_session.py lines
33–46), processing the `'.'`-separated pieces with the running `current`
chunk and the accumulator of finished chunks. -/
def split_query_loop (max_len : Nat) :
    List (List Char) → List Char → List (List Char) → List (List Char)
  | [], current, acc => if current.isEmpty then acc else acc ++ [current]
  | s :: rest, current, acc =>
    let sentence := stripChars s
    if sentence.isEmpty then split_query_loop max_len rest current acc
    else if !sentence.any pyIsAlnum then split_query_loop max_len rest current acc
    else if current.length + sentence.length + 1 ≤ max_len then
      split_query_loop max_len rest
        (if current.isEmpty then sentence else current ++ ('.' :: ' ' :: sentence)) acc
    else split_query_loop max_len rest sentence (acc ++ [current])

/-- search_session.py lines 29–47: remove double and single quotes, split on
`'.'`, accumulate sentences into chunks of at most `max_len` characters, and
drop chunks that are empty after stripping. -/
def split_query (query : String) (max_len : Nat) : List String :=
  ((split_query_loop max_len
      (splitOnChar '.' (query.data.filter (fun c => !(c = '"' || c = Char.ofNat 39))))
      [] []).map String.mk).filter (fun sq => !(stripChars sq.data).isEmpty)

/-! ## web_crawler.py: `url_hash` (lines 113–114) and the filename computed by
`fetch_one` (lines 537–543) -/

/-- web_crawler.py lines 113–114: the first 12 hex characters of
`hashlib.sha1(url.encode("utf-8")).hexdigest()`.  The SHA-1 hex digest itself
is computed by Python's `hashlib` and is modelled as the function parameter
`sha1_hexdigest`; `url_hash` takes its first 12 characters. -/
def url_hash (sha1_hexdigest : String → String) (url : String) : String :=
  String.mk ((sha1_hexdigest url).data.take 12)

/-- web_crawler.py line 538: the extension chosen by `fetch_one` from the
(lowercased) response `Content-Type` header and the URL. -/
def fetch_extension (url : String) (ctype : String) : String :=
  if listContains "application/pdf".data ctype.data || pyEndsWith (pyLower url) ".pdf" then
    ".pdf"
  else ".html"

/-- web_crawler.py lines 537–543: the filename under which `fetch_one` stores
a successful download, `f"{url_hash(url)}{ext}"`, where the extension depends
on the response's `Content-Type` header (lowercased, line 537). -/
def fetch_filename (sha1_hexdigest : String → String) (url : String)
    (content_type_header : String) : String :=
  url_hash sha1_hexdigest url ++ fetch_extension url (pyLower content_type_header)

/-! ## web_crawler.py: `SearchResult` (lines 119–125), `rerank`
(lines 467–485) and `EngineManager.search` (lines 645–664) -/

/-- web_crawler.py lines 119–125: one back-end hit. -/
structure SearchResult where
  title : String
  href : String
  body : String
  source : String
  published : Option String
deriving DecidableEq

/-- web_crawler.py lines 469–474: dedupe by `href`, preserving the first
occurrence; results with a falsy (empty) `href` are dropped.  `seen` models
the `seen` set of already-admitted hrefs. -/
def dedupe_by_href : List SearchResult → List String → List SearchResult
  | [], _ => []
  | r :: rest, seen =>
    if r.href ≠ "" ∧ r.href ∉ seen then r :: dedupe_by_href rest (r.href :: seen)
    else dedupe_by_href rest seen

/-- web_crawler.py lines 478–484: walk the sorted list and admit a result only
while its domain (`urlparse(r.href).netloc`, modelled by the parameter
`netloc`) has been admitted fewer than `per_domain_cap` times.  `counts`
models the `counts` dictionary (with `setdefault 0`). -/
def diversity_pass (netloc : String → String) (per_domain_cap : Nat) :
    List SearchResult → (String → Nat) → List SearchResult
  | [], _ => []
  | r :: rest, counts =>
    let dom := netloc r.href
    if counts dom < per_domain_cap then
      r :: diversity_pass netloc per_domain_cap rest
        (fun d => if d = dom then counts dom + 1 else counts d)
    else diversity_pass netloc per_domain_cap rest counts

/-- web_crawler.py lines 467–485: dedupe by href, stable-sort descending by
`score_result(r, keyword)` (Python's stable `list.sort` with `reverse=True`),
then apply the per-domain diversity pass.  `score_result` (lines 435–464)
reads the wall clock and an external fuzzy date parser, and
`urlparse(...).netloc` is Python's URL parser, so both are parameters; every
property proved below holds for all of them. -/
def rerank (score_result : SearchResult → String → ℚ) (netloc : String → String)
    (results : List SearchResult) (keyword : String) (per_domain_cap : Nat) :
    List SearchResult :=
  let deduped := dedupe_by_href results []
  let sorted := deduped.mergeSort
    (fun a b => decide (score_result b keyword ≤ score_result a keyword))
  diversity_pass netloc per_domain_cap sorted (fun _ => 0)

/-- web_crawler.py lines 651–664: the aggregation loop of
`EngineManager.search`.  An engine is a function from the keyword and
`max_results` to `Option (List SearchResult)`; `none` models a raised
exception, which the loop logs and treats as the empty chunk.  After each
engine the loop stops as soon as `len(aggregate) >= max_results * 2`. -/
def engine_manager_search_go (keyword : String) (max_results : Nat)
    (engines : List (String → Nat → Option (List SearchResult)))
    (aggregate : List SearchResult) : List SearchResult :=
  match engines with
  | [] => aggregate
  | eng :: rest =>
    let chunk := (eng keyword max_results).getD []
    let aggregate2 := aggregate ++ chunk
    if max_results * 2 ≤ aggregate2.length then aggregate2
    else engine_manager_search_go keyword max_results rest aggregate2

/-- web_crawler.py lines 651–664: `EngineManager.search` starting from the
empty aggregate. -/
def engine_manager_search (engines : List (String → Nat → Option (List SearchResult)))
    (keyword : String) (max_results : Nat) : List SearchResult :=
  engine_manager_search_go keyword max_results engines []

/-- The specification's description of `EngineManager.search` (spec §4.1):
take per-engine result chunks in engine order until the running total reaches
the threshold `2×max_results`, then concatenate them without interleaving.
Written from the spec's words, to be compared with the code's accumulator
loop. -/
def take_until_enough (threshold : Nat) : List (List SearchResult) → List (List SearchResult)
  | [] => []
  | c :: rest =>
    if threshold ≤ c.length then [c]
    else c :: take_until_enough (threshold - c.length) rest

/-- Spec-side `EngineManager.search` (spec §4.1): engines are consulted in
order, an exception counts as an empty chunk, and chunks are concatenated up
to the early-termination threshold. -/
def engine_manager_search_spec (engines : List (String → Nat → Option (List SearchResult)))
    (keyword : String) (max_results : Nat) : List SearchResult :=
  (take_until_enough (max_results * 2)
    (engines.map (fun eng => (eng keyword max_results).getD []))).flatten

/-! ## search_session.py: `perform_monte_carlo_subqueries` (lines 402–453) -/

/-- The external inputs of the Monte-Carlo sampler: `score` models the
composition of the query embedder with `late_interaction_score` against the
session's enhanced-query embedding, and `choices_pick` models the random
selection performed by `random.choices` once its argument checks pass. -/
structure McEnv where
  score : String → ℚ
  choices_pick : List (String × ℚ) → List ℚ → Nat → List (String × ℚ)

/-- CPython's `random.choices(population, weights=w, k=k)`: when the total of
the weights is not greater than zero it raises
`ValueError("Total of weights must be greater than zero")`; otherwise it
returns `k` (pseudo-randomly) selected elements, modelled by the `pick`
parameter.  (The population/weights length check never fires in
`perform_monte_carlo_subqueries`, whose weights are projected from the
population.) -/
def py_random_choices (pick : List (String × ℚ) → List ℚ → Nat → List (String × ℚ))
    (population : List (String × ℚ)) (weights : List ℚ) (k : Nat) :
    Except String (List (String × ℚ)) :=
  if weights.sum ≤ 0 then .error "Total of weights must be greater than zero"
  else .ok (pick population weights k)

/-- search_session.py lines 402–453: score the cleaned sub-queries, fall back
to the original list when no sub-query survives cleaning (`if not
scored_subqs`), then draw `min(monte_carlo_samples, len(scored_subqs))`
samples through `random.choices` with the relevance scores as weights.
`.error` models an uncaught Python exception.  (After the draw the code
computes `avg_selected_score = sum(...)/len(chosen)`, which raises
`ZeroDivisionError` when `chosen` is empty.) -/
def perform_monte_carlo_subqueries (E : McEnv) (monte_carlo_samples : Nat)
    (parent_query : String) (subqueries : List String) : Except String (List String) :=
  let scored_subqs := subqueries.filterMap (fun sq =>
    let sq_clean := clean_search_query sq
    if sq_clean = "" then none else some (sq_clean, E.score sq_clean))
  if scored_subqs.isEmpty then .ok subqueries
  else
    let weights := scored_subqs.map Prod.snd
    match py_random_choices E.choices_pick scored_subqs weights
        (min monte_carlo_samples scored_subqs.length) with
    | .error e => .error e
    | .ok chosen =>
      if chosen.length = 0 then .error "ZeroDivisionError: division by zero"
      else .ok (chosen.map Prod.fst)

/-! ## web_crawler.py: `parse_pdf_to_text` (lines 582–600),
`extract_html_text` (lines 603–632) and `parse_any_to_text` (lines 635–640) -/

/-- One PDF page as seen by `parse_pdf_to_text`: the results of
`page.get_text("text")` and `page.get_text("blocks")`. -/
structure PdfPage where
  textMode : String
  blocksMode : String

/-- The external PyMuPDF library: `fitz_open` models
`fitz.open(path)` followed by per-page text extraction; `.error` models any
exception raised inside the `try` block of `parse_pdf_to_text`. -/
structure PdfLib where
  fitz_open : String → Except Unit (List PdfPage)

/-- web_crawler.py lines 582–600: open the PDF, take up to `max_pages` pages,
prefer `"text"` extraction falling back to `"blocks"`, skip blank pages, join
with newlines, and return `""` when nothing remains or anything raises. -/
def parse_pdf_to_text (lib : PdfLib) (pdf_file_path : String) (max_pages : Nat) : String :=
  match lib.fitz_open pdf_file_path with
  | .error _ => ""
  | .ok pages =>
    let text_parts := (pages.take max_pages).filterMap (fun p =>
      let t := pyStrip p.textMode
      let t2 := if t = "" then pyStrip p.blocksMode else t
      if t2 = "" then none else some t2)
    let text := String.intercalate "\n" text_parts
    if pyStrip text = "" then "" else text

/-- The external HTML extraction stack used by `extract_html_text`:
trafilatura (optional import, may return `None`), readability-lxml (optional
import) and BeautifulSoup.  `.error` models a raised exception. -/
structure HtmlLib where
  trafilatura_available : Bool
  trafilatura_extract : String → Except Unit (Option String)
  readability_available : Bool
  readability_extract : String → Except Unit String
  bs4_get_text : String → Except Unit String

/-- web_crawler.py lines 603–632: try trafilatura (accept only a non-blank
result), then readability (its result is returned even if empty), then the
raw BeautifulSoup fallback, returning `""` if that too raises. -/
def extract_html_text (lib : HtmlLib) (html_bytes : String) : String :=
  let step1 : Option String :=
    if lib.trafilatura_available then
      match lib.trafilatura_extract html_bytes with
      | .ok (some txt) => if pyStrip txt = "" then none else some txt
      | .ok none => none
      | .error _ => none
    else none
  match step1 with
  | some txt => txt
  | none =>
    let step2 : Option String :=
      if lib.readability_available then
        match lib.readability_extract html_bytes with
        | .ok txt => some txt
        | .error _ => none
      else none
    match step2 with
    | some txt => txt
    | none =>
      match lib.bs4_get_text html_bytes with
      | .ok txt => txt
      | .error _ => ""

/-- The filesystem as seen by `parse_any_to_text`: `read_bytes` models
`open(file_path, "rb").read()`, with `none` for a raised `OSError`
(missing or unreadable file). -/
structure Fs where
  read_bytes : String → Option String

/-- web_crawler.py lines 635–640: route `.pdf` paths to `parse_pdf_to_text`
(which swallows its own errors) and read everything else from disk — with the
`open` call NOT under any `try` — before handing the bytes to
`extract_html_text`.  `.error` models the uncaught `OSError`. -/
def parse_any_to_text (fs : Fs) (pdf : PdfLib) (html : HtmlLib) (file_path : String)
    (max_pdf_pages : Nat) : Except Unit String :=
  if pyEndsWith (pyLower file_path) ".pdf" then
    .ok (parse_pdf_to_text pdf file_path max_pdf_pages)
  else
    match fs.read_bytes file_path with
    | none => .error ()
    | some raw => .ok (extract_html_text html raw)

/-! ## knowledge_base.py: `_l2norm` (lines 67–69) and `embed_text`
(lines 72–112) versus the web-page embedding path of
search_session.py (lines 541–574) -/

/-- An embedding vector (one row of a torch tensor), with real entries. -/
abbrev Vec := List ℝ

/-- The squared L2 norm of a vector. -/
def normSq (v : Vec) : ℝ := (v.map (fun x => x ^ 2)).sum

/-- Torch's `x.norm(dim=-1)` for a 1-D tensor: the L2 norm. -/
noncomputable def vnorm (v : Vec) : ℝ := Real.sqrt (normSq v)

/-- knowledge_base.py lines 67–69: `x / (x.norm(dim=-1, keepdim=True) + 1e-12)`. -/
noncomputable def l2norm (v : Vec) : Vec := v.map (fun x => x / (vnorm v + 1e-12))

/-- knowledge_base.py lines 72–112: every branch of `embed_text` (colpali,
all-minilm, siglip, clip) returns `_l2norm(emb)` of the raw model output,
modelled by the `raw_encode` parameter (the external ML encoder). -/
noncomputable def embed_text (raw_encode : String → Vec) (query : String) : Vec :=
  l2norm (raw_encode query)

/-- search_session.py lines 541–574: the embedding stored in a web
CorpusEntry during recursive expansion.  All three branches (`siglip`/`clip`
via `text_model.encode`, `colpali` via `outputs.embeddings.mean(dim=1)`, and
the plain `model.encode` fallback) store the encoder output directly —
`_l2norm` is never applied on this path. -/
def web_page_embedding (encode : String → Vec) (limited_text : String) : Vec :=
  encode limited_text

/-! ## search_session.py: `TOCNode.add_similarity_score` (lines 115–121) -/

/-- Python's built-in `max` on a list.  It raises on an empty list;
`add_similarity_score` only applies it to a freshly-appended (hence
non-empty) list, so the `[]` value below is never consulted there. -/
def pyMax : List ℚ → ℚ
  | [] => 0
  | x :: xs => xs.foldl max x

/-- Python's built-in `min` on a list (same caveat as `pyMax`). -/
def pyMin : List ℚ → ℚ
  | [] => 0
  | x :: xs => xs.foldl min x

/-- The similarity bookkeeping of a `TOCNode` (search_session.py lines 71–83):
the `similarity_scores` list and the three statistics kept in `metrics`. -/
structure SimStats where
  similarity_scores : List ℚ
  avg_similarity_score : ℚ
  max_similarity_score : ℚ
  min_similarity_score : ℚ

/-- The statistics fields of a fresh `TOCNode` (search_session.py lines
71–83): empty score list, all three statistics `0.0`. -/
def freshStats : SimStats := ⟨[], 0, 0, 0⟩

/-- search_session.py lines 115–121: append the score, then (the list now
being non-empty) recompute `avg`, `max` and `min` from the whole list. -/
def SimStats.addSimilarityScore (s : SimStats) (score : ℚ) : SimStats :=
  let ss := s.similarity_scores ++ [score]
  if ss.isEmpty then { s with similarity_scores := ss }
  else
    { similarity_scores := ss
      avg_similarity_score := ss.sum / (ss.length : ℚ)
      max_similarity_score := pyMax ss
      min_similarity_score := pyMin ss }

/-- Full consistency of the three statistics with the score list. -/
def SimStats.consistent (s : SimStats) : Prop :=
  s.similarity_scores ≠ [] ∧
  s.avg_similarity_score * (s.similarity_scores.length : ℚ) = s.similarity_scores.sum ∧
  s.max_similarity_score ∈ s.similarity_scores ∧
  (∀ x ∈ s.similarity_scores, x ≤ s.max_similarity_score) ∧
  s.min_similarity_score ∈ s.similarity_scores ∧
  (∀ x ∈ s.similarity_scores, s.min_similarity_score ≤ x)

/-! ## search_session.py: `TOCNode` (lines 53–124) and
`perform_recursive_web_searches` (lines 455–658) -/

/-- search_session.py lines 53–89: a node of the search tree, with the fields
the recursion logic reads or writes.  (The `node_id` uuid, the wall-clock
`timestamps`, the LLM `summary` and the per-branch web results are
externally-produced payload that never influences which nodes exist or their
`depth`/`parent_query`/`relevance_score` fields, and are not modelled.) -/
inductive TOCNode where
  | mk (query_text : String) (depth : Nat) (relevance_score : ℚ) (parent_query : String)
      (stats : SimStats) (children : List TOCNode)

def TOCNode.query_text : TOCNode → String
  | .mk q _ _ _ _ _ => q

def TOCNode.depth : TOCNode → Nat
  | .mk _ d _ _ _ _ => d

def TOCNode.relevance_score : TOCNode → ℚ
  | .mk _ _ r _ _ _ => r

def TOCNode.parent_query : TOCNode → String
  | .mk _ _ _ pq _ _ => pq

def TOCNode.stats : TOCNode → SimStats
  | .mk _ _ _ _ s _ => s

def TOCNode.children : TOCNode → List TOCNode
  | .mk _ _ _ _ _ cs => cs

/-- The assignment `child_node.parent_query = self.query_text` performed by
`add_child`. -/
def TOCNode.setParentQuery : TOCNode → String → TOCNode
  | .mk q d r _ s cs, pq => .mk q d r pq s cs

/-- search_session.py lines 87–89: `add_child` appends the child and
overwrites its `parent_query` with the parent's `query_text`. -/
def TOCNode.add_child (parent child : TOCNode) : TOCNode :=
  match parent with
  | .mk q d r pq s cs => .mk q d r pq s (cs ++ [child.setParentQuery q])

mutual

/-- A node together with all of its descendants, in prefix order. -/
def TOCNode.subtreeNodes : TOCNode → List TOCNode
  | .mk q d r pq s cs => .mk q d r pq s cs :: forestNodes cs

/-- All nodes of a forest of TOC trees. -/
def forestNodes : List TOCNode → List TOCNode
  | [] => []
  | n :: ns => n.subtreeNodes ++ forestNodes ns

end

/-- The external inputs of the recursive expansion: `relevance` models
embedding a cleaned sub-query and scoring it against the session's
enhanced-query embedding with `late_interaction_score` (lines 478–482), and
`enhance` models `llm_manager.enhance_query` (lines 616–622), with `none` for
a `None` return. -/
structure SessionEnv where
  relevance : String → ℚ
  enhance : String → Option String

/-- Python's `x if x else default` for an optional string (`toc_node.parent_query
= parent_query if parent_query else self.query`, line 475): `None` and the
empty string are both falsy. -/
def pyOrElse (x : Option String) (dflt : String) : String :=
  match x with
  | none => dflt
  | some s => if s = "" then dflt else s

/-- search_session.py lines 612–625: the `additional_subqueries` computed for
one gated sub-query when the depth allows recursion — the LLM enhancement, if
truthy and different from the cleaned sub-query, split into sub-queries. -/
def prws_additional (E : SessionEnv) (max_query_length : Nat) (sq_clean : String) :
    List String :=
  match E.enhance sq_clean with
  | none => []
  | some aq => if aq = "" ∨ aq = sq_clean then [] else split_query aq max_query_length

/-- search_session.py lines 455–658, the TOC-tree construction of
`perform_recursive_web_searches` for one list of sub-queries at one depth.
For each sub-query in order: clean it and skip it if falsy (lines 467–469);
build a `TOCNode` at the current depth whose `parent_query` falls back to the
session query (lines 472–475); score its relevance and push the score
(lines 478–484); abandon the branch if the relevance is below
`min_relevance` (lines 496–498); otherwise, when `current_depth < max_depth`,
ask the LLM for an enhancement and, if it is truthy and differs from the
cleaned sub-query, split it and recurse one level deeper, attaching the
returned nodes with `add_child` (lines 612–633); finally append the node to
the output list (line 640).  The network/download/embedding side effects of
lines 500–610 produce the node's unmodelled payload and do not influence the
tree structure.  `fuel` is a structural-termination device only: a recursive
call is attempted only when `current_depth < max_depth`, and each call
decrements `fuel` while incrementing `current_depth`, so with the entry
point's `fuel = max_depth` (depth starting at 1) the `fuel = 0` branch is
unreachable; every theorem below holds for all fuel values. -/
def perform_recursive_web_searches_aux (E : SessionEnv) (session_query : String)
    (max_depth : Nat) (min_relevance : ℚ) (max_query_length : Nat) :
    Nat → List String → Nat → Option String → List TOCNode
  | fuel, subqueries, current_depth, parent_query =>
    subqueries.foldr (fun sq acc =>
      let sq_clean := clean_search_query sq
      if sq_clean = "" then acc
      else
        let relevance := E.relevance sq_clean
        let node : TOCNode :=
          .mk sq_clean current_depth relevance (pyOrElse parent_query session_query)
            (freshStats.addSimilarityScore relevance) []
        if relevance < min_relevance then acc
        else
          let node2 :=
            if current_depth < max_depth then
              let additional_subqueries := prws_additional E max_query_length sq_clean
              if additional_subqueries.isEmpty then node
              else
                match fuel with
                | 0 => node
                | fuel' + 1 =>
                  (perform_recursive_web_searches_aux E session_query max_depth
                      min_relevance max_query_length fuel' additional_subqueries
                      (current_depth + 1) (some sq_clean)).foldl TOCNode.add_child node
            else node
          node2 :: acc) []

/-- search_session.py line 369: `run_session` starts the recursion at
`current_depth = 1` with no parent query; the recursion depth is bounded by
`max_depth`, which therefore suffices as fuel. -/
def perform_recursive_web_searches (E : SessionEnv) (session_query : String)
    (max_depth : Nat) (min_relevance : ℚ) (max_query_length : Nat)
    (subqueries : List String) : List TOCNode :=
  perform_recursive_web_searches_aux E session_query max_depth min_relevance
    max_query_length max_depth subqueries 1 none

/-- The node built by one loop iteration of
`perform_recursive_web_searches` for a sub-query that passed the falsy check
and the relevance gate, together with the children attached from the deeper
recursion (search_session.py lines 472–484 and 612–633). -/
def prws_node (E : SessionEnv) (session_query : String) (max_depth : Nat)
    (min_relevance : ℚ) (max_query_length : Nat) (fuel : Nat) (sq : String) (current_depth : Nat)
    (parent_query : Option String) : TOCNode :=
  let sq_clean := clean_search_query sq
  let relevance := E.relevance sq_clean
  let node : TOCNode :=
    .mk sq_clean current_depth relevance (pyOrElse parent_query session_query)
      (freshStats.addSimilarityScore relevance) []
  if current_depth < max_depth then
    let additional_subqueries := prws_additional E max_query_length sq_clean
    if additional_subqueries.isEmpty then node
    else
      match fuel with
      | 0 => node
      | fuel' + 1 =>
        (perform_recursive_web_searches_aux E session_query max_depth min_relevance
            max_query_length fuel' additional_subqueries (current_depth + 1)
            (some sq_clean)).foldl TOCNode.add_child node
  else node

/-! ## Theorems -/

theorem keepChar_eq_spec_allowed_of_ascii (c : Char) (h : c.toNat ≤ 0x7F) :
    (pyIsAlnum c || (['.', '_', '-'] : List Char).contains c) = spec_allowed c := by
  have h192 : decide (0xC0 ≤ c.toNat) = false := by
    simp only [decide_eq_false_iff_not]
    omega
  simp only [pyIsAlnum, spec_allowed, h192, Bool.false_and, Bool.or_false, Bool.or_assoc]

/-- C9 (corrected): `sanitize_filename` always preserves length, and on inputs
consisting only of ASCII characters it replaces exactly the characters outside
`[A-Za-z0-9._-]` with `'_'`, leaving the rest unchanged, so the ASCII output
consists only of characters of that class.  (On non-ASCII input the claim as
stated fails: Python's Unicode-aware `isalnum` keeps letters such as `'é'`;
see the counterexample.) -/
theorem claim_C9 (s : String) :
    (sanitize_filename s).length = s.length ∧
    ((∀ c ∈ s.data, c.toNat ≤ 0x7F) →
      (sanitize_filename s).data = s.data.map (fun c => if spec_allowed c then c else '_') ∧
      ∀ c ∈ (sanitize_filename s).data, spec_allowed c = true) := by
  refine ⟨?_, fun hascii => ⟨?_, ?_⟩⟩
  · simp only [sanitize_filename, String.length, List.length_map]
  · simp only [sanitize_filename]
    exact List.map_congr_left (fun c hc => by
      rw [keepChar_eq_spec_allowed_of_ascii c (hascii c hc)])
  · intro c hc
    simp only [sanitize_filename, List.mem_map] at hc
    obtain ⟨c0, hc0, rfl⟩ := hc
    rw [keepChar_eq_spec_allowed_of_ascii c0 (hascii c0 hc0)]
    by_cases h : spec_allowed c0 = true
    · rw [if_pos h]; exact h
    · rw [if_neg h]; decide

/-- C9 counterexample: `sanitize_filename "é"` keeps `'é'` (Python's
`isalnum` is Unicode-aware), so the output is not confined to
`[A-Za-z0-9._-]` and `'é'`, a character outside that class, is not replaced. -/
theorem claim_C9_counterexample :
    sanitize_filename "é" = "é" ∧ ((sanitize_filename "é").data.all spec_allowed) = false := by
  constructor <;> decide

/-- C9 witness: the amended claim applied to the concrete ASCII input
`"a b.txt"`. -/
theorem claim_C9_witness :
    (sanitize_filename "a b.txt").length = ("a b.txt" : String).length ∧
    (sanitize_filename "a b.txt").data =
      ("a b.txt" : String).data.map (fun c => if spec_allowed c then c else '_') ∧
    ∀ c ∈ (sanitize_filename "a b.txt").data, spec_allowed c = true := by
  have h := claim_C9 "a b.txt"
  exact ⟨h.1, (h.2 (by decide)).1, (h.2 (by decide)).2⟩

/-- C7 (corrected): the stored filename is the first 12 hex characters of
SHA1(url) plus an extension, but the extension also depends on the response's
`Content-Type` header, so two successful fetches of the same URL share a
filename exactly when they resolve to the same extension — in particular
whenever the two responses carry the same `Content-Type` header, and
unconditionally whenever the lowercased URL ends with `".pdf"`. -/
theorem claim_C7 (sha1_hexdigest : String → String) (u c1 c2 : String) :
    (fetch_filename sha1_hexdigest u c1 =
        url_hash sha1_hexdigest u ++ fetch_extension u (pyLower c1)) ∧
    (c1 = c2 → fetch_filename sha1_hexdigest u c1 = fetch_filename sha1_hexdigest u c2) ∧
    (pyEndsWith (pyLower u) ".pdf" = true →
      fetch_filename sha1_hexdigest u c1 = fetch_filename sha1_hexdigest u c2) := by
  refine ⟨rfl, fun h => by rw [h], fun hpdf => ?_⟩
  simp only [fetch_filename, fetch_extension, hpdf, Bool.or_true, if_true]

/-- C7 counterexample: the same URL fetched twice, once answered with
`Content-Type: application/pdf` and once with `Content-Type: text/html`,
is stored under two different filenames, refuting that the filename is a
function of the URL alone. -/
theorem claim_C7_counterexample :
    fetch_filename (fun _ => "0123456789abcdef") "http://example.com/a" "application/pdf" ≠
    fetch_filename (fun _ => "0123456789abcdef") "http://example.com/a" "text/html" := by
  decide

/-- C7 witness: the amended claim applied at a URL ending in `".pdf"` and at
equal content types. -/
theorem claim_C7_witness :
    fetch_filename (fun _ => "0123456789abcdef") "http://example.com/b.PDF" "text/html" =
      fetch_filename (fun _ => "0123456789abcdef") "http://example.com/b.PDF" "application/pdf" ∧
    fetch_filename (fun _ => "0123456789abcdef") "http://example.com/a" "text/html" =
      fetch_filename (fun _ => "0123456789abcdef") "http://example.com/a" "text/html" := by
  constructor
  · exact (claim_C7 (fun _ => "0123456789abcdef") "http://example.com/b.PDF" "text/html"
      "application/pdf").2.2 (by decide)
  · exact (claim_C7 (fun _ => "0123456789abcdef") "http://example.com/a" "text/html"
      "text/html").2.1 rfl

theorem dedupe_by_href_mem (l : List SearchResult) (seen : List String) :
    ∀ r ∈ dedupe_by_href l seen,
      r.href ≠ "" ∧ r.href ∉ seen ∧ (l.filter (fun x => x.href == r.href)).head? = some r := by
  induction l generalizing seen with
  | nil => intro r hr; simp [dedupe_by_href] at hr
  | cons x rest ih =>
    intro r hr
    simp only [dedupe_by_href] at hr
    by_cases hx : x.href ≠ "" ∧ x.href ∉ seen
    · rw [if_pos hx] at hr
      rcases List.mem_cons.1 hr with rfl | hr2
      · refine ⟨hx.1, hx.2, ?_⟩
        simp [List.filter_cons]
      · obtain ⟨h1, h2, h3⟩ := ih (x.href :: seen) r hr2
        have hne : x.href ≠ r.href := fun hEq => h2 (by simp [hEq])
        refine ⟨h1, fun hmem => h2 (by simp [hmem]), ?_⟩
        rw [List.filter_cons, if_neg (by simpa using fun hEq => hne hEq)]
        exact h3
    · rw [if_neg hx] at hr
      obtain ⟨h1, h2, h3⟩ := ih seen r hr
      push_neg at hx
      have hne : x.href ≠ r.href := by
        by_cases hxe : x.href = ""
        · exact fun hEq => h1 (hEq ▸ hxe)
        · exact fun hEq => h2 (hEq ▸ hx hxe)
      refine ⟨h1, h2, ?_⟩
      rw [List.filter_cons, if_neg (by simpa using fun hEq => hne hEq)]
      exact h3

theorem dedupe_by_href_nodup (l : List SearchResult) (seen : List String) :
    ((dedupe_by_href l seen).map (fun r => r.href)).Nodup := by
  induction l generalizing seen with
  | nil => simp [dedupe_by_href]
  | cons x rest ih =>
    simp only [dedupe_by_href]
    by_cases hx : x.href ≠ "" ∧ x.href ∉ seen
    · rw [if_pos hx]
      refine List.nodup_cons.2 ⟨?_, ih (x.href :: seen)⟩
      intro hmem
      obtain ⟨r, hr, hEq⟩ := List.mem_map.1 hmem
      exact (dedupe_by_href_mem rest (x.href :: seen) r hr).2.1 (by simp [hEq])
    · rw [if_neg hx]; exact ih seen

theorem diversity_pass_sublist (netloc : String → String) (cap : Nat)
    (l : List SearchResult) (counts : String → Nat) :
    (diversity_pass netloc cap l counts).Sublist l := by
  induction l generalizing counts with
  | nil => simp [diversity_pass]
  | cons r rest ih =>
    simp only [diversity_pass]
    by_cases h : counts (netloc r.href) < cap
    · rw [if_pos h]; exact (ih _).cons₂ r
    · rw [if_neg h]; exact (ih counts).cons r

theorem diversity_pass_countP (netloc : String → String) (cap : Nat) (dom : String)
    (l : List SearchResult) (counts : String → Nat) :
    (diversity_pass netloc cap l counts).countP (fun r => netloc r.href == dom) ≤
      cap - counts dom := by
  induction l generalizing counts with
  | nil => simp [diversity_pass]
  | cons r rest ih =>
    simp only [diversity_pass]
    by_cases h : counts (netloc r.href) < cap
    · rw [if_pos h, List.countP_cons]
      have H := ih (fun d => if d = netloc r.href then counts (netloc r.href) + 1 else counts d)
      by_cases hd : netloc r.href = dom
      · subst hd
        have H2 : (diversity_pass netloc cap rest
            (fun d => if d = netloc r.href then counts (netloc r.href) + 1 else counts d)).countP
              (fun x => netloc x.href == netloc r.href) ≤
            cap - (counts (netloc r.href) + 1) := by simpa using H
        simp only [beq_self_eq_true, if_true]
        omega
      · have hne : (netloc r.href == dom) = false := by simpa using hd
        rw [if_neg (fun hEq => hd hEq.symm)] at H
        rw [hne]
        simp only [Bool.false_eq_true, if_false]
        omega
    · rw [if_neg h]
      exact ih counts

/-- C4 (confirmed): for every scoring function, URL parser, input list,
keyword and cap, the output of `rerank` contains each URL at most once — and
any result it returns is the first occurrence of its URL in the input — and
contains at most `per_domain_cap` results from any one domain. -/
theorem claim_C4 (score_result : SearchResult → String → ℚ) (netloc : String → String)
    (results : List SearchResult) (keyword : String) (per_domain_cap : Nat) :
    ((rerank score_result netloc results keyword per_domain_cap).map (fun r => r.href)).Nodup ∧
    (∀ r ∈ rerank score_result netloc results keyword per_domain_cap,
      (results.filter (fun x => x.href == r.href)).head? = some r) ∧
    (∀ dom : String,
      (rerank score_result netloc results keyword per_domain_cap).countP
        (fun r => netloc r.href == dom) ≤ per_domain_cap) := by
  have hperm : ((dedupe_by_href results []).mergeSort
      (fun a b => decide (score_result b keyword ≤ score_result a keyword))).Perm
      (dedupe_by_href results []) := List.mergeSort_perm _ _
  have hsub := diversity_pass_sublist netloc per_domain_cap
    ((dedupe_by_href results []).mergeSort
      (fun a b => decide (score_result b keyword ≤ score_result a keyword))) (fun _ => 0)
  refine ⟨?_, ?_, ?_⟩
  · exact (hsub.map (fun r => r.href)).nodup
      ((hperm.map (fun r => r.href)).nodup_iff.2 (dedupe_by_href_nodup results []))
  · intro r hr
    have hr2 : r ∈ dedupe_by_href results [] := hperm.mem_iff.1 (hsub.subset hr)
    exact (dedupe_by_href_mem results [] r hr2).2.2
  · intro dom
    have := diversity_pass_countP netloc per_domain_cap dom
      ((dedupe_by_href results []).mergeSort
        (fun a b => decide (score_result b keyword ≤ score_result a keyword))) (fun _ => 0)
    simpa using this

/-- C4 witness: the first-occurrence clause of the claim applied to a
concrete single-result input. -/
theorem claim_C4_witness :
    (([⟨"t", "http://a/x", "b", "ddg", none⟩] : List SearchResult).filter
        (fun x => x.href == (⟨"t", "http://a/x", "b", "ddg", none⟩ : SearchResult).href)).head? =
      some ⟨"t", "http://a/x", "b", "ddg", none⟩ := by
  refine (claim_C4 (fun _ _ => 0) (fun _ => "a")
    [⟨"t", "http://a/x", "b", "ddg", none⟩] "k" 3).2.1 _ ?_
  simp [rerank, dedupe_by_href, diversity_pass]

theorem engine_manager_search_go_eq (keyword : String) (max_results : Nat)
    (engines : List (String → Nat → Option (List SearchResult))) :
    ∀ aggregate, engine_manager_search_go keyword max_results engines aggregate =
      aggregate ++ (take_until_enough (max_results * 2 - aggregate.length)
        (engines.map (fun eng => (eng keyword max_results).getD []))).flatten := by
  induction engines with
  | nil => intro aggregate; simp [engine_manager_search_go, take_until_enough]
  | cons eng rest ih =>
    intro aggregate
    simp only [engine_manager_search_go, List.map_cons, take_until_enough]
    by_cases h : max_results * 2 ≤ aggregate.length + ((eng keyword max_results).getD []).length
    · rw [if_pos (by simpa [List.length_append] using h), if_pos (by omega)]
      simp
    · rw [if_neg (by simpa [List.length_append] using h), if_neg (by omega), ih]
      have hlen : max_results * 2 - (aggregate ++ (eng keyword max_results).getD []).length =
          max_results * 2 - aggregate.length - ((eng keyword max_results).getD []).length := by
        simp only [List.length_append]
        omega
      rw [hlen]
      simp [List.flatten_cons, List.append_assoc]

/-- C5 (confirmed): `EngineManager.search` consults the engines in list
order, treats a raised exception (`none`) exactly like an engine returning no
results, concatenates the per-engine chunks in engine order without
interleaving, stops consulting further engines as soon as the aggregate
holds at least `2 × max_results` results (the spec-side
`engine_manager_search_spec` says exactly this), and can return the empty
list. -/
theorem claim_C5 (engines : List (String → Nat → Option (List SearchResult)))
    (keyword : String) (max_results : Nat) :
    engine_manager_search engines keyword max_results =
      engine_manager_search_spec engines keyword max_results ∧
    engine_manager_search ((fun _ _ => none) :: engines) keyword max_results =
      engine_manager_search ((fun _ _ => some []) :: engines) keyword max_results ∧
    engine_manager_search [fun _ _ => none, fun _ _ => none] keyword max_results = [] := by
  refine ⟨?_, ?_, ?_⟩
  · rw [engine_manager_search, engine_manager_search_go_eq]
    simp [engine_manager_search_spec]
  · rfl
  · rw [engine_manager_search, engine_manager_search_go_eq]
    by_cases h0 : max_results * 2 ≤ 0
    · simp [take_until_enough, h0]
    · simp [take_until_enough, h0]

theorem list_sum_nonpos (l : List ℚ) (h : ∀ x ∈ l, x ≤ 0) : l.sum ≤ 0 := by
  induction l with
  | nil => simp
  | cons a t ih =>
    simp only [List.sum_cons]
    have ha := h a (by simp)
    have ht := ih (fun x hx => h x (by simp [hx]))
    linarith

/-- C6 (corrected): the fallback that returns the candidate list unmodified
fires only when no candidate survives cleaning (`if not scored_subqs`).  When
at least one candidate survives cleaning and every computed relevance score
is ≤ 0, the weight total passed to `random.choices` is not positive and the
call raises `ValueError` instead of returning the candidates. -/
theorem claim_C6 (E : McEnv) (monte_carlo_samples : Nat) (parent_query : String)
    (subqueries : List String) :
    ((∀ sq ∈ subqueries, clean_search_query sq = "") →
      perform_monte_carlo_subqueries E monte_carlo_samples parent_query subqueries =
        .ok subqueries) ∧
    ((∃ sq ∈ subqueries, clean_search_query sq ≠ "") →
      (∀ sq ∈ subqueries, E.score (clean_search_query sq) ≤ 0) →
      perform_monte_carlo_subqueries E monte_carlo_samples parent_query subqueries =
        .error "Total of weights must be greater than zero") := by
  constructor
  · intro hall
    have hnil : subqueries.filterMap (fun sq =>
        let sq_clean := clean_search_query sq
        if sq_clean = "" then none else some (sq_clean, E.score sq_clean)) = [] := by
      refine List.filterMap_eq_nil_iff.mpr (fun sq hsq => ?_)
      simp only [hall sq hsq]
      rfl
    simp [perform_monte_carlo_subqueries, hnil]
  · intro hex hnonpos
    obtain ⟨sq0, hsq0, hne0⟩ := hex
    set f : String → Option (String × ℚ) := fun sq =>
      if clean_search_query sq = "" then none
      else some (clean_search_query sq, E.score (clean_search_query sq)) with hf
    have hmem : (clean_search_query sq0, E.score (clean_search_query sq0)) ∈
        subqueries.filterMap f := by
      refine List.mem_filterMap.mpr ⟨sq0, hsq0, ?_⟩
      simp [hf, hne0]
    have hnotempty : (subqueries.filterMap f).isEmpty = false := by
      cases h : subqueries.filterMap f with
      | nil => rw [h] at hmem; simp at hmem
      | cons a t => simp
    have hsum : ((subqueries.filterMap f).map Prod.snd).sum ≤ 0 := by
      refine list_sum_nonpos _ (fun x hx => ?_)
      obtain ⟨p, hp, rfl⟩ := List.mem_map.1 hx
      obtain ⟨sq, hsq, hpeq⟩ := List.mem_filterMap.1 hp
      by_cases hc : clean_search_query sq = ""
      · simp [hf, hc] at hpeq
      · simp only [hf, if_neg hc] at hpeq
        obtain rfl := Option.some_injective _ hpeq
        exact hnonpos sq hsq
    simp only [perform_monte_carlo_subqueries]
    rw [← hf, hnotempty]
    simp only [Bool.false_eq_true, if_false, py_random_choices, if_pos hsum]

/-- C6 counterexample: a single candidate `"alpha"` that survives cleaning
with relevance score 0 makes `random.choices` raise (weight total 0), so the
function does not return the candidate list, refuting the claimed fallback. -/
theorem claim_C6_counterexample :
    perform_monte_carlo_subqueries ⟨fun _ => 0, fun pop _ k => pop.take k⟩ 3
      "parent query" ["alpha"] = .error "Total of weights must be greater than zero" := by
  have hclean : clean_search_query "alpha" = "alpha" := by decide
  simp [perform_monte_carlo_subqueries, py_random_choices, hclean]

/-- C6 witness: the amended claim's fallback clause applied to a candidate
list in which every entry cleans to the empty string. -/
theorem claim_C6_witness :
    perform_monte_carlo_subqueries ⟨fun _ => 1, fun pop _ k => pop.take k⟩ 3
      "parent query" ["***", " _ "] = .ok ["***", " _ "] := by
  refine (claim_C6 ⟨fun _ => 1, fun pop _ k => pop.take k⟩ 3 "parent query"
    ["***", " _ "]).1 (fun sq hsq => ?_)
  have : sq = "***" ∨ sq = " _ " := by simpa using hsq
  rcases this with rfl | rfl <;> decide

/-- C8 (corrected): extraction is total for `.pdf` paths (any PDF failure
yields `""`) and for non-PDF paths whose file read succeeds (any HTML parse
failure yields `""`), but a non-PDF path whose `open()` raises propagates the
exception — `parse_any_to_text` performs the read outside any `try`. -/
theorem claim_C8 (fs : Fs) (pdf : PdfLib) (html : HtmlLib) (file_path : String)
    (max_pdf_pages : Nat) :
    (pyEndsWith (pyLower file_path) ".pdf" = true →
      (parse_any_to_text fs pdf html file_path max_pdf_pages).isOk = true) ∧
    (∀ raw, fs.read_bytes file_path = some raw →
      (parse_any_to_text fs pdf html file_path max_pdf_pages).isOk = true) ∧
    (pyEndsWith (pyLower file_path) ".pdf" = true → pdf.fitz_open file_path = .error () →
      parse_any_to_text fs pdf html file_path max_pdf_pages = .ok "") ∧
    (∀ raw, pyEndsWith (pyLower file_path) ".pdf" = false →
      fs.read_bytes file_path = some raw →
      html.trafilatura_extract raw = .error () → html.readability_extract raw = .error () →
      html.bs4_get_text raw = .error () →
      parse_any_to_text fs pdf html file_path max_pdf_pages = .ok "") := by
  refine ⟨fun hpdf => ?_, fun raw hraw => ?_, fun hpdf hopen => ?_, fun raw hnot hraw h1 h2 h3 => ?_⟩
  · simp only [parse_any_to_text, hpdf, if_true]
    rfl
  · by_cases hpdf : pyEndsWith (pyLower file_path) ".pdf" = true
    · simp only [parse_any_to_text, hpdf, if_true]
      rfl
    · simp only [Bool.not_eq_true] at hpdf
      simp only [parse_any_to_text, hpdf, Bool.false_eq_true, if_false, hraw]
      rfl
  · simp [parse_any_to_text, hpdf, parse_pdf_to_text, hopen]
  · simp only [parse_any_to_text, hnot, Bool.false_eq_true, if_false, hraw]
    simp [extract_html_text, h1, h2, h3]

/-- C8 counterexample: a non-PDF path whose `open()` raises (for instance a
file deleted between download and parse) makes `parse_any_to_text` raise
`OSError` instead of returning a string, refuting totality. -/
theorem claim_C8_counterexample :
    parse_any_to_text ⟨fun _ => none⟩ ⟨fun _ => .ok []⟩
      ⟨true, fun _ => .ok none, true, fun _ => .ok "", fun _ => .ok ""⟩
      "page.html" 10 = .error () := by
  rfl

/-- C8 witness: the amended claim applied to a failing PDF and to a readable
HTML file on which every extractor raises. -/
theorem claim_C8_witness :
    parse_any_to_text ⟨fun _ => none⟩ ⟨fun _ => .error ()⟩
      ⟨true, fun _ => .error (), true, fun _ => .error (), fun _ => .error ()⟩
      "doc.PDF" 10 = .ok "" ∧
    parse_any_to_text ⟨fun _ => some "<html>"⟩ ⟨fun _ => .error ()⟩
      ⟨true, fun _ => .error (), true, fun _ => .error (), fun _ => .error ()⟩
      "page.html" 10 = .ok "" := by
  constructor
  · exact (claim_C8 ⟨fun _ => none⟩ ⟨fun _ => .error ()⟩
      ⟨true, fun _ => .error (), true, fun _ => .error (), fun _ => .error ()⟩
      "doc.PDF" 10).2.2.1 (by decide) rfl
  · exact (claim_C8 ⟨fun _ => some "<html>"⟩ ⟨fun _ => .error ()⟩
      ⟨true, fun _ => .error (), true, fun _ => .error (), fun _ => .error ()⟩
      "page.html" 10).2.2.2 "<html>" (by decide) rfl rfl rfl rfl

theorem normSq_nonneg (v : Vec) : 0 ≤ normSq v := by
  refine List.sum_nonneg (fun x hx => ?_)
  obtain ⟨y, _, rfl⟩ := List.mem_map.1 hx
  positivity

theorem vnorm_nonneg (v : Vec) : 0 ≤ vnorm v := Real.sqrt_nonneg _

theorem normSq_map_div (v : Vec) (c : ℝ) :
    normSq (v.map (fun x => x / c)) = normSq v / c ^ 2 := by
  induction v with
  | nil => simp [normSq]
  | cons a t ih =>
    simp only [normSq, List.map_cons, List.sum_cons] at ih ⊢
    rw [div_pow, ih, add_div]

theorem vnorm_l2norm (v : Vec) :
    vnorm (l2norm v) = vnorm v / (vnorm v + 1e-12) := by
  have hpos : (0:ℝ) < vnorm v + 1e-12 := by
    have := vnorm_nonneg v
    norm_num
    linarith
  rw [l2norm, vnorm, normSq_map_div, Real.sqrt_div (normSq_nonneg v),
    Real.sqrt_sq hpos.le]
  rfl

/-- C1 (corrected): every embedding produced through `embed_text` — the path
used for the local corpus directory, where `_l2norm` is always applied — has
L2 norm within `1e-5` of 1, provided the raw encoder output has norm at least
`1e-7` (the `+ 1e-12` guard in the denominator keeps the quotient strictly
below 1).  Embeddings of downloaded web pages are stored by
`perform_recursive_web_searches` without `_l2norm`, so their norm is whatever
the encoder returns; see the counterexample. -/
theorem claim_C1 (raw_encode : String → Vec) (query : String)
    (h : 1e-7 ≤ vnorm (raw_encode query)) :
    |vnorm (embed_text raw_encode query) - 1| ≤ 1e-5 := by
  set n := vnorm (raw_encode query) with hn
  have hn0 : (0:ℝ) ≤ n := vnorm_nonneg _
  have hpos : (0:ℝ) < n + 1e-12 := by norm_num; linarith
  have hval : vnorm (embed_text raw_encode query) = n / (n + 1e-12) := by
    rw [embed_text, vnorm_l2norm]
  rw [hval]
  have hdiff : n / (n + 1e-12) - 1 = -(1e-12 / (n + 1e-12)) := by
    field_simp
  rw [hdiff, abs_neg, abs_of_nonneg (by positivity)]
  have hb : (1e-12:ℝ) / (n + 1e-12) ≤ 1e-12 / (1e-7 : ℝ) := by
    apply div_le_div_of_nonneg_left (by norm_num) (by norm_num)
    norm_num
    linarith
  calc (1e-12:ℝ) / (n + 1e-12) ≤ 1e-12 / (1e-7:ℝ) := hb
    _ ≤ 1e-5 := by norm_num

theorem vnorm_three_four : vnorm [(3:ℝ), 4] = 5 := by
  have h : normSq [(3:ℝ), 4] = 25 := by
    simp [normSq]
    norm_num
  rw [vnorm, h, show (25:ℝ) = 5 ^ 2 by norm_num,
    Real.sqrt_sq (by norm_num : (0:ℝ) ≤ 5)]

/-- C1 counterexample: a web-page CorpusEntry built from an encoder returning
the (entirely plausible, since neither `sentence_transformers.encode` nor the
ColPali mean-pool normalizes) vector `[3, 4]` has embedding norm 5, not
1 ± 1e-5 — the recursive-expansion path stores the encoder output without
`_l2norm`. -/
theorem claim_C1_counterexample :
    ¬ (|vnorm (web_page_embedding (fun _ => [3, 4]) "page text") - 1| ≤ 1e-5) := by
  have h : vnorm (web_page_embedding (fun _ => [3, 4]) "page text") = 5 :=
    vnorm_three_four
  rw [h]
  norm_num

/-- C1 witness: the amended claim applied to the concrete raw encoder output
`[3, 4]`, whose norm 5 exceeds the `1e-7` floor. -/
theorem claim_C1_witness :
    (1e-7:ℝ) ≤ vnorm ((fun _ => [(3:ℝ), 4]) "q") ∧
    |vnorm (embed_text (fun _ => [(3:ℝ), 4]) "q") - 1| ≤ 1e-5 := by
  have h : (1e-7:ℝ) ≤ vnorm ((fun _ => [(3:ℝ), 4]) "q") := by
    rw [show ((fun _ => [(3:ℝ), 4]) "q") = [(3:ℝ), 4] from rfl, vnorm_three_four]
    norm_num
  exact ⟨h, claim_C1 (fun _ => [(3:ℝ), 4]) "q" h⟩

theorem pyMax_foldl_mem (x : ℚ) (xs : List ℚ) : xs.foldl max x ∈ x :: xs := by
  induction xs generalizing x with
  | nil => simp
  | cons a t ih =>
    simp only [List.foldl_cons]
    rcases List.mem_cons.1 (ih (max x a)) with h | h
    · rcases max_choice x a with hm | hm
      · exact List.mem_cons.2 (Or.inl (h.trans hm))
      · exact List.mem_cons.2 (Or.inr (List.mem_cons.2 (Or.inl (h.trans hm))))
    · exact List.mem_cons.2 (Or.inr (List.mem_cons.2 (Or.inr h)))

theorem pyMax_foldl_le (x : ℚ) (xs : List ℚ) : ∀ y ∈ x :: xs, y ≤ xs.foldl max x := by
  induction xs generalizing x with
  | nil => simp
  | cons a t ih =>
    intro y hy
    simp only [List.foldl_cons]
    rcases List.mem_cons.1 hy with rfl | hy2
    · exact le_trans (le_max_left y a) (ih (max y a) _ (by simp))
    · rcases List.mem_cons.1 hy2 with rfl | hy3
      · exact le_trans (le_max_right x y) (ih (max x y) _ (by simp))
      · exact ih (max x a) y (by simp [hy3])

theorem pyMin_foldl_mem (x : ℚ) (xs : List ℚ) : xs.foldl min x ∈ x :: xs := by
  induction xs generalizing x with
  | nil => simp
  | cons a t ih =>
    simp only [List.foldl_cons]
    rcases List.mem_cons.1 (ih (min x a)) with h | h
    · rcases min_choice x a with hm | hm
      · exact List.mem_cons.2 (Or.inl (h.trans hm))
      · exact List.mem_cons.2 (Or.inr (List.mem_cons.2 (Or.inl (h.trans hm))))
    · exact List.mem_cons.2 (Or.inr (List.mem_cons.2 (Or.inr h)))

theorem pyMin_foldl_le (x : ℚ) (xs : List ℚ) : ∀ y ∈ x :: xs, xs.foldl min x ≤ y := by
  induction xs generalizing x with
  | nil => simp
  | cons a t ih =>
    intro y hy
    simp only [List.foldl_cons]
    rcases List.mem_cons.1 hy with rfl | hy2
    · exact le_trans (ih (min y a) _ (by simp)) (min_le_left y a)
    · rcases List.mem_cons.1 hy2 with rfl | hy3
      · exact le_trans (ih (min x y) _ (by simp)) (min_le_right x y)
      · exact ih (min x a) y (by simp [hy3])

theorem addSimilarityScore_consistent (s : SimStats) (score : ℚ) :
    (s.addSimilarityScore score).consistent := by
  have hne : (s.similarity_scores ++ [score]).isEmpty = false := by
    simp
  rw [SimStats.addSimilarityScore]
  simp only [hne, Bool.false_eq_true, if_false]
  rcases hcons : s.similarity_scores ++ [score] with _ | ⟨x, xs⟩
  · exact absurd hcons (by simp)
  · have hlen : (((x :: xs).length : ℚ)) ≠ 0 :=
      Nat.cast_ne_zero.mpr (by simp)
    refine ⟨by simp, ?_, ?_, ?_, ?_, ?_⟩
    · exact div_mul_cancel₀ (x :: xs).sum hlen
    · exact pyMax_foldl_mem x xs
    · exact pyMax_foldl_le x xs
    · exact pyMin_foldl_mem x xs
    · exact pyMin_foldl_le x xs

/-- C10 (confirmed): after any non-empty sequence of `add_similarity_score`
calls — starting from any prior state, so in particular from a fresh node —
the `avg`, `max` and `min` statistics agree with the `similarity_scores`
list: the average times the length is the sum, and the max/min are members
of the list bounding every element. -/
theorem claim_C10 (init : SimStats) (s0 : ℚ) (rest : List ℚ) :
    (rest.foldl SimStats.addSimilarityScore (init.addSimilarityScore s0)).consistent := by
  induction rest generalizing init s0 with
  | nil => exact addSimilarityScore_consistent init s0
  | cons a t ih =>
    rw [List.foldl_cons]
    exact ih (init.addSimilarityScore s0) a

/-- C10 witness: the consistency statement evaluated after pushing scores
`2` then `1` onto a fresh node. -/
theorem claim_C10_witness :
    (([1] : List ℚ).foldl SimStats.addSimilarityScore
      (freshStats.addSimilarityScore 2)).consistent :=
  claim_C10 freshStats 2 [1]

theorem mem_subtreeNodes_iff (p n : TOCNode) :
    p ∈ n.subtreeNodes ↔ p = n ∨ p ∈ forestNodes n.children := by
  cases n with
  | mk q d r pq s cs =>
    rw [TOCNode.subtreeNodes]
    simp [TOCNode.children]

theorem mem_forestNodes_iff (p : TOCNode) (l : List TOCNode) :
    p ∈ forestNodes l ↔ ∃ n ∈ l, p ∈ n.subtreeNodes := by
  induction l with
  | nil => simp [forestNodes]
  | cons n ns ih =>
    rw [forestNodes]
    simp only [List.mem_append, ih, List.mem_cons]
    constructor
    · rintro (h | ⟨m, hm, hp⟩)
      · exact ⟨n, Or.inl rfl, h⟩
      · exact ⟨m, Or.inr hm, hp⟩
    · rintro ⟨m, hm | hm, hp⟩
      · exact Or.inl (hm ▸ hp)
      · exact Or.inr ⟨m, hm, hp⟩

theorem setParentQuery_children (n : TOCNode) (q : String) :
    (n.setParentQuery q).children = n.children := by
  cases n; rfl

theorem setParentQuery_depth (n : TOCNode) (q : String) :
    (n.setParentQuery q).depth = n.depth := by
  cases n; rfl

theorem setParentQuery_query_text (n : TOCNode) (q : String) :
    (n.setParentQuery q).query_text = n.query_text := by
  cases n; rfl

theorem setParentQuery_relevance (n : TOCNode) (q : String) :
    (n.setParentQuery q).relevance_score = n.relevance_score := by
  cases n; rfl

theorem setParentQuery_parent_query (n : TOCNode) (q : String) :
    (n.setParentQuery q).parent_query = q := by
  cases n; rfl

theorem subtreeNodes_setParentQuery (n : TOCNode) (q : String) :
    (n.setParentQuery q).subtreeNodes = n.setParentQuery q :: forestNodes n.children := by
  cases n with
  | mk qt d r pq s cs => rw [TOCNode.setParentQuery, TOCNode.subtreeNodes, TOCNode.children]

/-- The fold of `add_child` over a list of children rewrites each child's
`parent_query` to the parent's `query_text` and appends them, leaving every
other field of the parent unchanged. -/
theorem foldl_add_child (cs : List TOCNode) (q : String) (d : Nat) (r : ℚ) (pq : String)
    (s : SimStats) (cs0 : List TOCNode) :
    cs.foldl TOCNode.add_child (.mk q d r pq s cs0) =
      .mk q d r pq s (cs0 ++ cs.map (fun c => c.setParentQuery q)) := by
  induction cs generalizing cs0 with
  | nil => simp
  | cons c rest ih =>
    rw [List.foldl_cons, TOCNode.add_child, ih]
    simp

theorem prws_aux_nil (E : SessionEnv) (sq0 : String) (maxD : Nat) (minR : ℚ) (mql : Nat)
    (fuel : Nat) (d : Nat) (pq : Option String) :
    perform_recursive_web_searches_aux E sq0 maxD minR mql fuel [] d pq = [] := by
  rw [perform_recursive_web_searches_aux]
  rfl

theorem prws_aux_cons (E : SessionEnv) (sq0 : String) (maxD : Nat) (minR : ℚ) (mql : Nat)
    (fuel : Nat) (sq : String) (rest : List String) (d : Nat) (pq : Option String) :
    perform_recursive_web_searches_aux E sq0 maxD minR mql fuel (sq :: rest) d pq =
      (if clean_search_query sq = "" then
        perform_recursive_web_searches_aux E sq0 maxD minR mql fuel rest d pq
      else if E.relevance (clean_search_query sq) < minR then
        perform_recursive_web_searches_aux E sq0 maxD minR mql fuel rest d pq
      else
        prws_node E sq0 maxD minR mql fuel sq d pq ::
          perform_recursive_web_searches_aux E sq0 maxD minR mql fuel rest d pq) := by
  conv_lhs => rw [perform_recursive_web_searches_aux]
  rw [List.foldr_cons, ← perform_recursive_web_searches_aux]
  rfl

/-- Every `prws_node` is the gated sub-query's node — cleaned query text,
current depth, its relevance score, the `parent_query` fallback, the pushed
similarity score — and its children are either empty or the one-level-deeper
recursion's roots re-parented to this node. -/
theorem prws_node_eq (E : SessionEnv) (sq0 : String) (maxD : Nat) (minR : ℚ) (mql : Nat)
    (fuel : Nat) (sq : String) (d : Nat) (pq : Option String) :
    ∃ cs : List TOCNode,
      prws_node E sq0 maxD minR mql fuel sq d pq =
        .mk (clean_search_query sq) d (E.relevance (clean_search_query sq))
          (pyOrElse pq sq0)
          (freshStats.addSimilarityScore (E.relevance (clean_search_query sq))) cs ∧
      (cs = [] ∨ ∃ fuel' adds, fuel = fuel' + 1 ∧
        cs = (perform_recursive_web_searches_aux E sq0 maxD minR mql fuel' adds (d + 1)
          (some (clean_search_query sq))).map
            (fun c => c.setParentQuery (clean_search_query sq))) := by
  simp only [prws_node]
  by_cases h3 : d < maxD
  · rw [if_pos h3]
    by_cases h5 : (prws_additional E mql (clean_search_query sq)).isEmpty
    · rw [if_pos h5]
      exact ⟨[], rfl, Or.inl rfl⟩
    · rw [if_neg h5]
      cases fuel with
      | zero => exact ⟨[], rfl, Or.inl rfl⟩
      | succ fuel' =>
        exact ⟨_, (foldl_add_child _ _ _ _ _ _ _).trans (by rw [List.nil_append]),
          Or.inr ⟨fuel', prws_additional E mql (clean_search_query sq), rfl, rfl⟩⟩
  · rw [if_neg h3]
    exact ⟨[], rfl, Or.inl rfl⟩

theorem forestNodes_map_setParentQuery_sub (cs : List TOCNode) (q : String) (p : TOCNode)
    (hp : p ∈ forestNodes (cs.map (fun c => c.setParentQuery q))) :
    p ∈ forestNodes cs ∨ ∃ c ∈ cs, p = c.setParentQuery q := by
  rw [mem_forestNodes_iff] at hp
  obtain ⟨m, hm, hpm⟩ := hp
  obtain ⟨c, hc, rfl⟩ := List.mem_map.1 hm
  rw [mem_subtreeNodes_iff] at hpm
  rcases hpm with rfl | hpm
  · exact Or.inr ⟨c, hc, rfl⟩
  · rw [setParentQuery_children] at hpm
    exact Or.inl ((mem_forestNodes_iff _ _).2 ⟨c, hc, (mem_subtreeNodes_iff _ _).2 (Or.inr hpm)⟩)

theorem mem_roots_mem_forestNodes (c : TOCNode) (l : List TOCNode) (hc : c ∈ l) :
    c ∈ forestNodes l :=
  (mem_forestNodes_iff _ _).2 ⟨c, hc, (mem_subtreeNodes_iff _ _).2 (Or.inl rfl)⟩

/-- The combined structural invariant of the recursion: every root of the
returned forest sits at the depth it was created for, and every node of the
forest passed the relevance gate and has well-formed children (depth one
deeper, `parent_query` equal to the parent's `query_text`). -/
theorem prws_aux_invariants (E : SessionEnv) (sq0 : String) (maxD : Nat) (minR : ℚ)
    (mql : Nat) :
    ∀ (fuel : Nat) (subqs : List String) (d : Nat) (pq : Option String),
      (∀ n ∈ perform_recursive_web_searches_aux E sq0 maxD minR mql fuel subqs d pq,
        n.depth = d) ∧
      (∀ n ∈ forestNodes (perform_recursive_web_searches_aux E sq0 maxD minR mql fuel subqs d pq),
        minR ≤ n.relevance_score ∧
        ∀ c ∈ n.children, c.depth = n.depth + 1 ∧ c.parent_query = n.query_text) := by
  intro fuel
  induction fuel using Nat.strong_induction_on with
  | _ fuel ihf =>
  intro subqs d pq
  induction subqs with
  | nil =>
    rw [prws_aux_nil]
    exact ⟨by simp, by simp [forestNodes]⟩
  | cons sq rest ihl =>
    rw [prws_aux_cons]
    by_cases h1 : clean_search_query sq = ""
    · rw [if_pos h1]; exact ihl
    · rw [if_neg h1]
      by_cases h2 : E.relevance (clean_search_query sq) < minR
      · rw [if_pos h2]; exact ihl
      · rw [if_neg h2]
        obtain ⟨cs, hnode, hcs⟩ := prws_node_eq E sq0 maxD minR mql fuel sq d pq
        have hchild : ∀ c ∈ cs, c.depth = d + 1 ∧ c.parent_query = clean_search_query sq := by
          intro c hc
          rcases hcs with rfl | ⟨fuel', adds, rfl, rfl⟩
          · simp at hc
          · obtain ⟨c0, hc0, rfl⟩ := List.mem_map.1 hc
            have hd := (ihf fuel' (by omega) adds (d + 1) (some (clean_search_query sq))).1 c0 hc0
            rw [setParentQuery_depth, setParentQuery_parent_query]
            exact ⟨hd, rfl⟩
        have hforest : ∀ n ∈ forestNodes cs,
            minR ≤ n.relevance_score ∧
            ∀ c ∈ n.children, c.depth = n.depth + 1 ∧ c.parent_query = n.query_text := by
          intro n hn
          rcases hcs with rfl | ⟨fuel', adds, rfl, rfl⟩
          · simp [forestNodes] at hn
          · have ihdeep := (ihf fuel' (by omega) adds (d + 1) (some (clean_search_query sq))).2
            rcases forestNodes_map_setParentQuery_sub _ _ n hn with hn2 | ⟨c, hc, rfl⟩
            · exact ihdeep n hn2
            · have hcforest := ihdeep c (mem_roots_mem_forestNodes c _ hc)
              rw [setParentQuery_relevance, setParentQuery_children, setParentQuery_depth,
                setParentQuery_query_text]
              exact hcforest
        constructor
        · intro n hn
          rcases List.mem_cons.1 hn with rfl | hn2
          · rw [hnode]; rfl
          · exact ihl.1 n hn2
        · intro n hn
          rw [forestNodes] at hn
          rcases List.mem_append.1 hn with hn2 | hn2
          · rw [hnode] at hn2
            rw [TOCNode.subtreeNodes] at hn2
            rcases List.mem_cons.1 hn2 with rfl | hn3
            · refine ⟨not_lt.1 h2, ?_⟩
              intro c hc
              exact hchild c hc
            · exact hforest n hn3
          · exact ihl.2 n hn2

/-- C2 (confirmed): for every environment, session query, depth bound,
threshold and sub-query list, no `TOCNode` anywhere in the forest returned by
`perform_recursive_web_searches` has `relevance_score` below
`min_relevance` — a gated branch contributes no node and no children. -/
theorem claim_C2 (E : SessionEnv) (session_query : String) (max_depth : Nat)
    (min_relevance : ℚ) (max_query_length : Nat) (subqueries : List String) :
    ∀ n ∈ forestNodes (perform_recursive_web_searches E session_query max_depth
      min_relevance max_query_length subqueries),
      min_relevance ≤ n.relevance_score := by
  intro n hn
  exact ((prws_aux_invariants E session_query max_depth min_relevance max_query_length
    max_depth subqueries 1 none).2 n hn).1

/-- C3 (confirmed): in every forest returned by
`perform_recursive_web_searches`, each root node has depth 1, every child's
depth is its parent's depth plus one, and every child's `parent_query` equals
its parent's `query_text`. -/
theorem claim_C3 (E : SessionEnv) (session_query : String) (max_depth : Nat)
    (min_relevance : ℚ) (max_query_length : Nat) (subqueries : List String) :
    (∀ n ∈ perform_recursive_web_searches E session_query max_depth min_relevance
        max_query_length subqueries, n.depth = 1) ∧
    (∀ n ∈ forestNodes (perform_recursive_web_searches E session_query max_depth
        min_relevance max_query_length subqueries),
      ∀ c ∈ n.children, c.depth = n.depth + 1 ∧ c.parent_query = n.query_text) := by
  have h := prws_aux_invariants E session_query max_depth min_relevance max_query_length
    max_depth subqueries 1 none
  exact ⟨h.1, fun n hn => (h.2 n hn).2⟩

/-- C2 witness: the gate invariant applied to a concrete session (constant
relevance 1, no enhancement, threshold 0) whose forest holds one node. -/
theorem claim_C2_witness :
    (0:ℚ) ≤ ((forestNodes (perform_recursive_web_searches ⟨fun _ => 1, fun _ => none⟩
        "session query" 1 0 200 ["hello"])).head
        (List.ne_nil_of_length_pos (by decide))).relevance_score :=
  claim_C2 ⟨fun _ => 1, fun _ => none⟩ "session query" 1 0 200 ["hello"] _
    (List.head_mem _)

/-- C3 witness: the depth/parent invariants applied to a concrete session
(max depth 2, the LLM enhancing `q` to `q ++ " deeper"`) whose forest holds a
root with one child. -/
theorem claim_C3_witness :
    ((perform_recursive_web_searches ⟨fun _ => 1, fun q => some (q ++ " deeper")⟩
        "session query" 2 0 200 ["hello"]).head
        (List.ne_nil_of_length_pos (by decide))).depth = 1 ∧
    (((forestNodes (perform_recursive_web_searches
          ⟨fun _ => 1, fun q => some (q ++ " deeper")⟩
          "session query" 2 0 200 ["hello"])).head
        (List.ne_nil_of_length_pos (by decide))).children.head
        (List.ne_nil_of_length_pos (by decide))).depth =
      ((forestNodes (perform_recursive_web_searches
          ⟨fun _ => 1, fun q => some (q ++ " deeper")⟩
          "session query" 2 0 200 ["hello"])).head
        (List.ne_nil_of_length_pos (by decide))).depth + 1 ∧
    (((forestNodes (perform_recursive_web_searches
          ⟨fun _ => 1, fun q => some (q ++ " deeper")⟩
          "session query" 2 0 200 ["hello"])).head
        (List.ne_nil_of_length_pos (by decide))).children.head
        (List.ne_nil_of_length_pos (by decide))).parent_query =
      ((forestNodes (perform_recursive_web_searches
          ⟨fun _ => 1, fun q => some (q ++ " deeper")⟩
          "session query" 2 0 200 ["hello"])).head
        (List.ne_nil_of_length_pos (by decide))).query_text := by
  refine ⟨(claim_C3 ⟨fun _ => 1, fun q => some (q ++ " deeper")⟩
    "session query" 2 0 200 ["hello"]).1 _ (List.head_mem _), ?_, ?_⟩
  · exact ((claim_C3 ⟨fun _ => 1, fun q => some (q ++ " deeper")⟩
      "session query" 2 0 200 ["hello"]).2 _ (List.head_mem _) _ (List.head_mem _)).1
  · exact ((claim_C3 ⟨fun _ => 1, fun q => some (q ++ " deeper")⟩
      "session query" 2 0 200 ["hello"]).2 _ (List.head_mem _) _ (List.head_mem _)).2

end NanoSage
